import Mathlib

/-!
Verification of the diff segmentation / filtering pipeline and the
multi-backend orchestration of the pr_reviewer repository.

Python strings are modelled as `List Char`; machine-level details the
claims do not touch (network clients, Tk widgets) are abstracted as
function parameters.  Every definition transcribes the corresponding
Python function from `src/pr_reviewer`.
-/

/-- The set of line-break characters recognised by Python `str.splitlines`. -/
def isLineBreak (c : Char) : Bool :=
  c == '\n' || c == '\r' || c == '\x0b' || c == '\x0c' ||
  c == '\x1c' || c == '\x1d' || c == '\x1e' || c == '\x85' ||
  c == '\u2028' || c == '\u2029'

/-- Python `s.splitlines(keepends=True)`: each line keeps its terminator;
`"\r\n"` counts as a single terminator. -/
def splitlines : List Char → List (List Char)
  | [] => []
  | c :: rest =>
    if c = '\r' ∧ rest.head? = some '\n' then ['\r', '\n'] :: splitlines rest.tail
    else if isLineBreak c then [c] :: splitlines rest
    else
      match splitlines rest with
      | [] => [[c]]
      | l :: ls => (c :: l) :: ls
termination_by s => s.length
decreasing_by
  all_goals simp [List.length_tail]
  all_goals omega

/-- Loop body of `chunk_text` (src/pr_reviewer/diff_utils.py:4-15), kept at the
level of line lists: `cur` is the current buffer of lines, `size` its total
character count.  Mirrors `if size + ln_len > max_chars and cur`. -/
def chunkAux (maxChars : Nat) : List (List Char) → List (List Char) → Nat → List (List (List Char))
  | [], cur, _ => if cur.isEmpty then [] else [cur]
  | ln :: rest, cur, size =>
    if size + ln.length > maxChars && !cur.isEmpty then
      cur :: chunkAux maxChars rest [ln] ln.length
    else
      chunkAux maxChars rest (cur ++ [ln]) (size + ln.length)

/-- The chunks of `chunk_text`, as lists of whole lines (the Python code keeps
`cur` as a list of lines and joins it only when flushing). -/
def chunkBlocks (s : List Char) (maxChars : Nat) : List (List (List Char)) :=
  chunkAux maxChars (splitlines s) [] 0

/-- `chunk_text` from src/pr_reviewer/diff_utils.py:4-15: each flushed buffer
is `"".join(cur)`. -/
def chunk_text (s : List Char) (maxChars : Nat) : List (List Char) :=
  (chunkBlocks s maxChars).map List.flatten

/-- Total character count of a list of lines. -/
def sumLens (lns : List (List Char)) : Nat :=
  (lns.map List.length).sum

/-- Segments of a text between newline characters; `re.MULTILINE` anchors
`^`/`$` exactly at these segment boundaries and `.` never crosses them. -/
def splitOnNL : List Char → List (List Char)
  | [] => [[]]
  | c :: rest =>
    if c = '\n' then [] :: splitOnNL rest
    else
      match splitOnNL rest with
      | [] => [[c]]
      | seg :: more => (c :: seg) :: more

/-- Drop a literal prefix from a character list (`none` if it is absent). -/
def dropLit : List Char → List Char → Option (List Char)
  | [], rest => some rest
  | _ :: _, [] => none
  | p :: ps, c :: cs => if c = p then dropLit ps cs else none

/-- Greedy split of the remainder of a header line at the last occurrence of
`" b/"` that leaves a non-empty tail; this is exactly where the backtracking
regex `(?P<a>.+) b/(?P<b>.+)$` places the boundary. -/
def lastBSplit : List Char → Option (List Char × List Char)
  | [] => none
  | c :: rest =>
    match lastBSplit rest with
    | some (x, y) => some (c :: x, y)
    | none =>
      if c = ' ' then
        match rest with
        | 'b' :: '/' :: y => if y.isEmpty then none else some ([], y)
        | _ => none
      else none

/-- Parse one `^`-to-`$` segment against
`FILE_HEADER_RE = "diff --git a/(?P<a>.+) b/(?P<b>.+)"`, returning the `b`
group (the group `a` part must be non-empty). -/
def headerOf (seg : List Char) : Option (List Char) :=
  match dropLit ("diff --git a/".data) seg with
  | none => none
  | some r =>
    match lastBSplit r with
    | none => none
    | some (x, y) => if x.isEmpty then none else some y

/-- The `b` group of every header match of `FILE_HEADER_RE.finditer`, in
text order (the `files` list of `extract_changed_files`). -/
def headerPaths (d : List Char) : List (List Char) :=
  (splitOnNL d).filterMap headerOf

/-- The dedup loop of `extract_changed_files`
(src/pr_reviewer/diff_utils.py:24-26): keep the first occurrence. -/
def uniqKeepFirst : List (List Char) → List (List Char) → List (List Char)
  | [], _ => []
  | f :: rest, seen =>
    if f ∈ seen then uniqKeepFirst rest seen
    else f :: uniqKeepFirst rest (f :: seen)

/-- `extract_changed_files` from src/pr_reviewer/diff_utils.py:19-27. -/
def extract_changed_files (d : List Char) : List (List Char) :=
  uniqKeepFirst (headerPaths d) []

/-- Split a text into newline-terminated lines (every `'\n'` ends a line and
stays attached to it); block offsets produced by the multiline header regex
always sit at these line starts. -/
def nlLines : List Char → List (List Char)
  | [] => []
  | c :: rest =>
    if c = '\n' then ['\n'] :: nlLines rest
    else
      match nlLines rest with
      | [] => [[c]]
      | seg :: more => (c :: seg) :: more

/-- Remove the trailing `'\n'` of a line, if any: `$` matches just before it. -/
def stripNL (ln : List Char) : List Char :=
  if ln.getLast? = some '\n' then ln.dropLast else ln

/-- The `b` group of `FILE_HEADER_RE` matched against one line. -/
def headerOfLine (ln : List Char) : Option (List Char) :=
  headerOf (stripNL ln)

/-- Whether a line is a `diff --git a/... b/...` header. -/
def isHeaderLine (ln : List Char) : Bool :=
  (headerOfLine ln).isSome

/-- Group lines into file blocks: each header line starts a new block
(`blocks = [diff_text[starts[i]:starts[i+1]] ...]`). -/
def mkBlocksAux : List (List Char) → List (List Char) → List (List (List Char))
  | [], cur => [cur]
  | ln :: rest, cur =>
    if isHeaderLine ln then cur :: mkBlocksAux rest [ln]
    else mkBlocksAux rest (cur ++ [ln])

/-- The file blocks of a diff, as lists of lines, starting at the first
header line; text before the first header belongs to no block, exactly as
the offset slicing in `filter_out_generated_diffs` discards it. -/
def parseBlocks (d : List Char) : List (List (List Char)) :=
  match (nlLines d).dropWhile (fun ln => !isHeaderLine ln) with
  | [] => []
  | h :: rest => mkBlocksAux rest [h]

/-- Remove one trailing line terminator, as Python `splitlines()` (without
keepends) does to each line. -/
def stripEOL (ln : List Char) : List Char :=
  match ln.reverse with
  | '\n' :: '\r' :: rest => rest.reverse
  | c :: rest => if isLineBreak c then rest.reverse else ln
  | [] => ln

/-- `"\n".join(...)`. -/
def joinNL : List (List Char) → List Char
  | [] => []
  | [l] => l
  | l :: ls => l ++ '\n' :: joinNL ls

/-- Python `str.lower`, per character. -/
def pyToLower (l : List Char) : List Char :=
  l.map Char.toLower

/-- `"\n".join(block_text.splitlines()[:head_lines]).lower()` from
`_has_generated_markers` (src/pr_reviewer/github_api.py:162-170). -/
def headJoin (blockText : List Char) (headLines : Nat) : List Char :=
  pyToLower (joinNL (((splitlines blockText).map stripEOL).take headLines))

/-- Substring test (`mm in head`). -/
def subList (needle hay : List Char) : Bool :=
  decide (needle <:+: hay)

/-- `_has_generated_markers` from src/pr_reviewer/github_api.py:162-170. -/
def hasGeneratedMarkers (blockText : List Char) (markers : List (List Char)) : Bool :=
  if markers.isEmpty then false
  else
    markers.any (fun m =>
      let mm := pyToLower m
      !mm.isEmpty && subList mm (headJoin blockText 120))

/-- Python `str.strip()`. -/
def pyStrip (l : List Char) : List Char :=
  ((l.dropWhile Char.isWhitespace).reverse.dropWhile Char.isWhitespace).reverse

/-- A path rule (shell glob via `fnmatch`, or the configured regex) is an
external matcher that may fail, mirroring the `try/except` wrapping in
`_is_generated_path`: `Except.error ()` is a raised exception. -/
def globLoop : List (List Char → Except Unit Bool) → List Char → Bool
  | [], _ => false
  | g :: gs, p =>
    match g p with
    | Except.ok true => true
    | _ => globLoop gs p

/-- `_is_generated_path` from src/pr_reviewer/github_api.py:143-159: strip the
path, try every glob (a raising glob is ignored), then the optional regex
(a raising regex is ignored), else `False`. -/
def isGeneratedPath (path : List Char) (globs : List (List Char → Except Unit Bool))
    (rx : Option (List Char → Except Unit Bool)) : Bool :=
  let p := pyStrip path
  if globLoop globs p then true
  else
    match rx with
    | some r =>
      match r p with
      | Except.ok true => true
      | _ => false
    | none => false

/-- The configuration keys read by `filter_out_generated_diffs`; a falsy
`generated_file_regex` is `none`. -/
structure RuleCfg where
  skip_generated : Bool
  generated_path_globs : List (List Char → Except Unit Bool)
  generated_file_regex : Option (List Char → Except Unit Bool)
  generated_header_markers : List (List Char)

/-- `m = FILE_HEADER_RE.search(blk); b_path = (m.group("b") if m else "") or ""`:
the first header line of the block supplies the `b` group. -/
def blockBGroup (blk : List (List Char)) : List Char :=
  match blk.find? isHeaderLine with
  | some ln => (headerOfLine ln).getD []
  | none => []

/-- `if b_path.startswith("b/"): b_path = b_path[2:]`
(src/pr_reviewer/github_api.py:204-205). -/
def stripLeadingB (p : List Char) : List Char :=
  if p.take 2 = ['b', '/'] then p.drop 2 else p

/-- The path a block is classified and reported under. -/
def blockPath (blk : List (List Char)) : List Char :=
  stripLeadingB (blockBGroup blk)

/-- `skipped.append(b_path or "(unknown)")`. -/
def skippedName (blk : List (List Char)) : List Char :=
  if (blockPath blk).isEmpty then "(unknown)".data else blockPath blk

/-- `is_gen = _is_generated_path(b_path, globs, file_rx) or _has_generated_markers(blk, markers)`. -/
def isGenBlock (cfg : RuleCfg) (blk : List (List Char)) : Bool :=
  isGeneratedPath (blockPath blk) cfg.generated_path_globs cfg.generated_file_regex ||
  hasGeneratedMarkers blk.flatten cfg.generated_header_markers

/-- One iteration of the kept/skipped loop of `filter_out_generated_diffs`
(src/pr_reviewer/github_api.py:201-210): a generated block contributes its
path to the skipped list, any other block contributes its text to `kept`. -/
def keepSkipStep (cfg : RuleCfg) (acc : List (List Char) × List (List Char))
    (blk : List (List Char)) : List (List Char) × List (List Char) :=
  if isGenBlock cfg blk then (acc.1, acc.2 ++ [skippedName blk])
  else (acc.1 ++ [blk.flatten], acc.2)

/-- `filter_out_generated_diffs` from src/pr_reviewer/github_api.py:173-211. -/
def filter_out_generated_diffs (d : List Char) (cfg : RuleCfg) :
    List Char × List (List Char) :=
  if d.isEmpty then (d, [])
  else if !cfg.skip_generated then (d, [])
  else if (nlLines d).all (fun ln => !isHeaderLine ln) then (d, [])
  else
    let go := (parseBlocks d).foldl (keepSkipStep cfg) ([], [])
    (go.1.flatten, go.2)

/-- Record one finished backend task, as in `App.on_review`
(src/pr_reviewer/ui.py:1072-1089) and the File History fan-out
(src/pr_reviewer/file_history_tab.py:840-858): a success stores its output
under the backend id; a failure stores the message in the error map and an
empty placeholder in the result map. -/
def recordResult (acc : List (String × String) × List (String × String))
    (m : String) (r : Except String String) :
    List (String × String) × List (String × String) :=
  match r with
  | Except.ok out => (acc.1 ++ [(m, out)], acc.2)
  | Except.error e => (acc.1 ++ [(m, "")], acc.2 ++ [(m, e)])

/-- The orchestration join: tasks settle in the order `order` (the caller
list in sequential mode, the `as_completed` order in parallel mode) and each
writes its own key once; insertion-ordered association lists model the
Python dicts `results` and `errors`. -/
def orchestrate (order : List String) (invoke : String → Except String String) :
    List (String × String) × List (String × String) :=
  order.foldl (fun acc m => recordResult acc m (invoke m)) ([], [])

/-- The `srcs` list of `synthesize_file_history_with_base`
(src/pr_reviewer/file_history_tab.py:504-507): one formatted entry per
non-empty result, in the iteration order of `summaries_by_model`. -/
def synthSrcs (summaries : List (String × String)) : List String :=
  summaries.filterMap (fun p =>
    if p.2 = "" then none
    else some ("### Model: " ++ p.1 ++ "\n" ++ p.2))

/-- `"\n\n".join(srcs) if srcs else "No sources."`
(src/pr_reviewer/file_history_tab.py:533). -/
def synthContext (summaries : List (String × String)) : String :=
  if (synthSrcs summaries).isEmpty then "No sources."
  else String.intercalate "\n\n" (synthSrcs summaries)

/-- The fixed synthesis instruction text of
`synthesize_file_history_with_base` (quotes elided). -/
def synthUserText : String :=
  "You are given multiple per-commit summaries for the SAME file. " ++
  "Produce a SINGLE best summary that follows the requested template, " ++
  "preserving distinct TABLE blocks per commit. Merge overlapping points, " ++
  "keep concrete descriptions, include Other Files Modified sections only " ++
  "when present, and ensure Likely Reasons are concise bullet points. " ++
  "Conclude with a single Overall Narrative expressed as bullet points."

/-- The message payload handed to the single base-model call of
`synthesize_file_history_with_base` (src/pr_reviewer/file_history_tab.py:525-537). -/
def synthMessages (systemTxt template headerTxt : String)
    (summaries : List (String × String)) : List String :=
  [systemTxt, template, headerTxt, synthUserText, synthContext summaries]

/-- `synthesize_file_history_with_base`
(src/pr_reviewer/file_history_tab.py:497-538): one call to the base backend
(`baseCall` abstracts `client.chat.completions.create` plus choice
extraction) over the assembled messages. -/
def synthesize_file_history_with_base (baseCall : List String → String)
    (systemTxt template headerTxt : String)
    (summaries : List (String × String)) : String :=
  baseCall (synthMessages systemTxt template headerTxt summaries)

/-- A configuration with filtering enabled and no rules at all. -/
def cfgNoRules : RuleCfg :=
  ⟨true, [], none, []⟩

/-- A configuration with filtering disabled. -/
def cfgDisabled : RuleCfg :=
  ⟨false, [], none, []⟩

/-- Concrete invocation map for the single-failure witness: backend `"b"`
raises, the others return real outputs. -/
def invokeOneFail : String → Except String String :=
  fun m => if m = "b" then Except.error "boom" else Except.ok ("out-" ++ m)

/-- The successful outputs of `invokeOneFail`. -/
def outOneFail : String → String :=
  fun m => "out-" ++ m

/-- All-success invocation map whose outputs echo the backend name. -/
def invokeEcho : String → Except String String :=
  fun m => Except.ok ("v" ++ m)

/-- Index of the first occurrence of `p` in a list (length of the list when
`p` is absent); used to state first-appearance order. -/
def firstIdx (p : List Char) : List (List Char) → Nat
  | [] => 0
  | q :: rest => if q = p then 0 else firstIdx p rest + 1

/-- The value stored in the result map for one backend: its output on
success, the empty placeholder on failure. -/
def resultValue (invoke : String → Except String String) (m : String) : String :=
  match invoke m with
  | Except.ok out => out
  | Except.error _ => ""

/-- The error-map entry contributed by one backend, if any. -/
def errEntry (invoke : String → Except String String) (m : String) :
    Option (String × String) :=
  match invoke m with
  | Except.ok _ => none
  | Except.error e => some (m, e)

/-- All-success invocation map for the C7 witness. -/
def invokeOk : String → Except String String :=
  fun m => Except.ok ("o" ++ m)

/-- The outputs of `invokeOk`. -/
def outOk : String → String :=
  fun m => "o" ++ m

/-- Diff with two file blocks used by the C4 witness. -/
def dTwoBlocks : List Char :=
  "diff --git a/f1 b/f1\n+x\ndiff --git a/f2 b/f2\n+y\n".data

/-- Configuration whose single (well-behaved) glob matches exactly `f2`. -/
def cfgGlobF2 : RuleCfg :=
  ⟨true, [fun p => Except.ok (p = "f2".data)], none, []⟩

/-- A rule that always raises, for the C8 witness. -/
def badRule : List Char → Except Unit Bool :=
  fun _ => Except.error ()

/-- A well-behaved rule matching exactly the path `y`, for the C8 witness. -/
def okRule : List Char → Except Unit Bool :=
  fun p => Except.ok (p = "y".data)

/-- Single file block whose header is `diff --git a/x b/y`. -/
def blkSample : List (List Char) :=
  ["diff --git a/x b/y\n".data]

/-- Single file block for a real file living under a top-level directory
named `b`: its true path is `b/real.txt`. -/
def blkB : List (List Char) :=
  ["diff --git a/b/real.txt b/b/real.txt\n".data]

/-! ## Helper lemmas -/

theorem flatten_map_flatten {α : Type} (L : List (List (List α))) :
    (L.map List.flatten).flatten = L.flatten.flatten := by
  induction L with
  | nil => rfl
  | cons b L ih => simp [ih]

theorem flatten_splitlines (s : List Char) :
    (splitlines s).flatten = s := by
  induction s using splitlines.induct with
  | case1 => simp [splitlines]
  | case2 c rest h ih =>
    obtain ⟨rfl, hh⟩ := h
    cases rest with
    | nil => simp at hh
    | cons r2 t =>
      have hr2 : r2 = '\n' := by simpa using hh
      subst hr2
      simp [splitlines] at ih ⊢
      exact ih
  | case3 c rest hne hbr ih =>
    simp [splitlines, hne, hbr, ih]
  | case4 c rest hne hbr heq ih =>
    have hrest : rest = [] := by rw [← ih, heq]; rfl
    subst hrest
    simp [splitlines, hne, hbr]
  | case5 c rest hne hbr l ls heq ih =>
    rw [heq] at ih
    simp only [List.flatten_cons] at ih
    simp [splitlines, hne, hbr, heq, ih]

theorem sumLens_append (l1 l2 : List (List Char)) :
    sumLens (l1 ++ l2) = sumLens l1 + sumLens l2 := by
  simp [sumLens]

theorem mem_le_sumLens {ln : List Char} {lns : List (List Char)} (h : ln ∈ lns) :
    ln.length ≤ sumLens lns := by
  induction lns with
  | nil => cases h
  | cons a as ih =>
    rcases List.mem_cons.mp h with rfl | h'
    · simp [sumLens]
    · have hle := ih h'
      simp only [sumLens, List.map_cons, List.sum_cons] at hle ⊢
      omega

theorem flatten_chunkAux (maxChars : Nat) (lns cur : List (List Char)) (size : Nat) :
    (chunkAux maxChars lns cur size).flatten = cur ++ lns := by
  induction lns, cur, size using chunkAux.induct maxChars with
  | case1 cur x h => simp [chunkAux, h, List.isEmpty_iff.mp h]
  | case2 cur x h => simp [chunkAux, h]
  | case3 ln0 rest cur size hcond ih => simp [chunkAux, hcond, ih]
  | case4 ln0 rest cur size hcond ih => simp [chunkAux, hcond, ih]

theorem chunkAux_mem_longline (maxChars : Nat) (lns cur : List (List Char)) (size : Nat) :
    size = sumLens cur → (size ≤ maxChars ∨ ∃ l, cur = [l]) →
    ∀ b ∈ chunkAux maxChars lns cur size, ∀ ln ∈ b, maxChars < ln.length → b = [ln] := by
  induction lns, cur, size using chunkAux.induct maxChars with
  | case1 cur x h =>
    intro _ _ b hb
    simp [chunkAux, h] at hb
  | case2 cur x h =>
    intro hsz hinv b hb ln hln hlen
    simp only [chunkAux] at hb
    rw [if_neg (by simpa using h)] at hb
    rw [List.mem_singleton] at hb
    subst hb
    rcases hinv with hle | ⟨l, rfl⟩
    · exact absurd hlen (not_lt.mpr ((mem_le_sumLens hln).trans (hsz ▸ hle)))
    · rw [List.mem_singleton] at hln
      rw [hln]
  | case3 ln0 rest cur size hcond ih =>
    intro hsz hinv b hb ln hln hlen
    simp only [chunkAux, hcond, if_pos] at hb
    rcases List.mem_cons.mp hb with rfl | hb'
    · rcases hinv with hle | ⟨l, rfl⟩
      · exact absurd hlen (not_lt.mpr ((mem_le_sumLens hln).trans (hsz ▸ hle)))
      · rw [List.mem_singleton] at hln
        rw [hln]
    · exact ih (by simp [sumLens]) (Or.inr ⟨ln0, rfl⟩) b hb' ln hln hlen
  | case4 ln0 rest cur size hcond ih =>
    intro hsz hinv b hb ln hln hlen
    simp only [chunkAux] at hb
    rw [if_neg hcond] at hb
    refine ih ?_ ?_ b hb ln hln hlen
    · rw [sumLens_append, ← hsz]; simp [sumLens]
    · by_cases hc : cur.isEmpty
      · exact Or.inr ⟨ln0, by rw [List.isEmpty_iff.mp hc]; rfl⟩
      · have hc' : cur.isEmpty = false := by
          cases hcur : cur.isEmpty
          · rfl
          · exact absurd hcur hc
        have hng : ¬(size + ln0.length > maxChars) := by
          intro hgt
          exact hcond (by simp [hgt, hc'])
        exact Or.inl (by omega)

/-! ## Claim C1 -/

/-- Claim C1: for every input and every `maxChars ≥ 1`, `chunk_text` never
splits a line across two chunks — each chunk is the concatenation of the
whole lines in its block, the blocks partition `splitlines s` in order, a
line longer than `maxChars` occupies a block of its own — and the
concatenation of all returned chunks is exactly the input. -/
theorem chunk_text_line_aligned (s : List Char) (maxChars : Nat) (_hmax : 1 ≤ maxChars) :
    (chunk_text s maxChars).flatten = s ∧
    chunk_text s maxChars = (chunkBlocks s maxChars).map List.flatten ∧
    (chunkBlocks s maxChars).flatten = splitlines s ∧
    ∀ b ∈ chunkBlocks s maxChars, ∀ ln ∈ b, maxChars < ln.length → b = [ln] := by
  refine ⟨?_, rfl, ?_, ?_⟩
  · rw [chunk_text, flatten_map_flatten, chunkBlocks, flatten_chunkAux]
    simpa using flatten_splitlines s
  · rw [chunkBlocks, flatten_chunkAux]; rfl
  · exact chunkAux_mem_longline maxChars (splitlines s) [] 0 (by simp [sumLens])
      (Or.inl (Nat.zero_le _))

/-- Witness for C1 at a concrete input: three lines, budget 5, the middle
line longer than the budget. -/
theorem chunk_text_line_aligned_witness :
    (chunk_text ("aa\nbbbbbb\ncc\ndd".data) 5).flatten = "aa\nbbbbbb\ncc\ndd".data ∧
    chunk_text ("aa\nbbbbbb\ncc\ndd".data) 5
      = (chunkBlocks ("aa\nbbbbbb\ncc\ndd".data) 5).map List.flatten ∧
    (chunkBlocks ("aa\nbbbbbb\ncc\ndd".data) 5).flatten = splitlines ("aa\nbbbbbb\ncc\ndd".data) ∧
    ∀ b ∈ chunkBlocks ("aa\nbbbbbb\ncc\ndd".data) 5, ∀ ln ∈ b, 5 < ln.length → b = [ln] :=
  chunk_text_line_aligned ("aa\nbbbbbb\ncc\ndd".data) 5 (by decide)

theorem mem_uniqKeepFirst (a : List Char) (l seen : List (List Char)) :
    a ∈ uniqKeepFirst l seen ↔ a ∈ l ∧ a ∉ seen := by
  induction l generalizing seen with
  | nil => simp [uniqKeepFirst]
  | cons f rest ih =>
    by_cases hf : f ∈ seen
    · rw [uniqKeepFirst, if_pos hf, ih]
      constructor
      · exact fun h => ⟨List.mem_cons_of_mem _ h.1, h.2⟩
      · rintro ⟨h1, h2⟩
        rcases List.mem_cons.mp h1 with rfl | h1'
        · exact absurd hf h2
        · exact ⟨h1', h2⟩
    · rw [uniqKeepFirst, if_neg hf]
      constructor
      · intro h
        rcases List.mem_cons.mp h with rfl | h'
        · exact ⟨List.mem_cons_self _ _, hf⟩
        · obtain ⟨h1, h2⟩ := (ih (f :: seen)).mp h'
          exact ⟨List.mem_cons_of_mem _ h1, fun hs => h2 (List.mem_cons_of_mem _ hs)⟩
      · rintro ⟨h1, h2⟩
        by_cases haf : a = f
        · exact haf ▸ List.mem_cons_self _ _
        · rcases List.mem_cons.mp h1 with rfl | h1'
          · exact absurd rfl haf
          · refine List.mem_cons_of_mem _ ((ih (f :: seen)).mpr ⟨h1', ?_⟩)
            intro hs
            rcases List.mem_cons.mp hs with h | h
            · exact haf h
            · exact h2 h

theorem nodup_uniqKeepFirst (l seen : List (List Char)) :
    (uniqKeepFirst l seen).Nodup := by
  induction l generalizing seen with
  | nil => simp [uniqKeepFirst]
  | cons f rest ih =>
    by_cases hf : f ∈ seen
    · rw [uniqKeepFirst, if_pos hf]; exact ih seen
    · rw [uniqKeepFirst, if_neg hf]
      refine List.nodup_cons.mpr ⟨?_, ih (f :: seen)⟩
      intro hmem
      exact ((mem_uniqKeepFirst f rest (f :: seen)).mp hmem).2 (List.mem_cons_self _ _)

theorem pairwise_uniqKeepFirst (l seen : List (List Char)) :
    (uniqKeepFirst l seen).Pairwise (fun p q => firstIdx p l < firstIdx q l) := by
  induction l generalizing seen with
  | nil => simp [uniqKeepFirst]
  | cons f rest ih =>
    by_cases hf : f ∈ seen
    · rw [uniqKeepFirst, if_pos hf]
      refine (ih seen).imp_of_mem ?_
      intro a b ha hb hlt
      have ha' := (mem_uniqKeepFirst a rest seen).mp ha
      have hb' := (mem_uniqKeepFirst b rest seen).mp hb
      have haf : f ≠ a := fun h => ha'.2 (h ▸ hf)
      have hbf : f ≠ b := fun h => hb'.2 (h ▸ hf)
      simp only [firstIdx, if_neg haf, if_neg hbf]
      exact Nat.succ_lt_succ hlt
    · rw [uniqKeepFirst, if_neg hf]
      refine List.Pairwise.cons ?_ ?_
      · intro q hq
        have hq' := (mem_uniqKeepFirst q rest (f :: seen)).mp hq
        have hqf : f ≠ q := fun h => hq'.2 (h ▸ List.mem_cons_self f seen)
        simp only [firstIdx, if_pos rfl, if_neg hqf]
        exact Nat.succ_pos _
      · refine (ih (f :: seen)).imp_of_mem ?_
        intro a b ha hb hlt
        have ha' := (mem_uniqKeepFirst a rest (f :: seen)).mp ha
        have hb' := (mem_uniqKeepFirst b rest (f :: seen)).mp hb
        have haf : f ≠ a := fun h => ha'.2 (h ▸ List.mem_cons_self f seen)
        have hbf : f ≠ b := fun h => hb'.2 (h ▸ List.mem_cons_self f seen)
        simp only [firstIdx, if_neg haf, if_neg hbf]
        exact Nat.succ_lt_succ hlt

/-! ## Claim C5 -/

/-- Claim C5: `extract_changed_files` returns each `b` path of a
`diff --git a/<A> b/<B>` header exactly once — duplicates removed keeping
the first occurrence — listed in first-appearance order (the order of the
first occurrence index in the raw header-path list). -/
theorem extract_changed_files_first_occurrence (d : List Char) :
    (extract_changed_files d).Nodup ∧
    (∀ p, p ∈ extract_changed_files d ↔ p ∈ headerPaths d) ∧
    (extract_changed_files d).Pairwise
      (fun p q => firstIdx p (headerPaths d) < firstIdx q (headerPaths d)) := by
  refine ⟨nodup_uniqKeepFirst _ _, ?_, pairwise_uniqKeepFirst _ _⟩
  intro p
  rw [extract_changed_files, mem_uniqKeepFirst]
  simp

theorem orchestrate_go (invoke : String → Except String String) (order : List String)
    (k s : List (String × String)) :
    order.foldl (fun acc m => recordResult acc m (invoke m)) (k, s)
      = (k ++ order.map (fun m => (m, resultValue invoke m)),
         s ++ order.filterMap (errEntry invoke)) := by
  induction order generalizing k s with
  | nil => simp
  | cons m rest ih =>
    simp only [List.foldl_cons]
    cases hm : invoke m with
    | ok out =>
      rw [show recordResult (k, s) m (Except.ok out) = (k ++ [(m, out)], s) from rfl]
      rw [ih]
      simp [resultValue, errEntry, hm]
    | error e =>
      rw [show recordResult (k, s) m (Except.error e) = (k ++ [(m, "")], s ++ [(m, e)]) from rfl]
      rw [ih]
      simp [resultValue, errEntry, hm]

theorem orchestrate_fst (order : List String) (invoke : String → Except String String) :
    (orchestrate order invoke).1 = order.map (fun m => (m, resultValue invoke m)) := by
  rw [orchestrate, orchestrate_go]
  simp

theorem orchestrate_snd (order : List String) (invoke : String → Except String String) :
    (orchestrate order invoke).2 = order.filterMap (errEntry invoke) := by
  rw [orchestrate, orchestrate_go]
  simp

theorem lookup_map_value (order : List String) (v : String → String) (m : String)
    (h : m ∈ order) :
    (order.map (fun x => (x, v x))).lookup m = some (v m) := by
  induction order with
  | nil => cases h
  | cons a rest ih =>
    by_cases ham : m = a
    · subst ham
      simp [List.lookup]
    · have hbeq : (m == a) = false := beq_eq_false_iff_ne.mpr ham
      simp only [List.map_cons, List.lookup, hbeq]
      rcases List.mem_cons.mp h with rfl | h'
      · exact absurd rfl ham
      · exact ih h'

theorem filterMap_eq_single (g : String → Option (String × String)) (b : String)
    (x : String × String) (l : List String)
    (hnd : l.Nodup) (hmem : b ∈ l) (hb : g b = some x)
    (hother : ∀ m ∈ l, m ≠ b → g m = none) :
    l.filterMap g = [x] := by
  induction l with
  | nil => cases hmem
  | cons a rest ih =>
    obtain ⟨hna, hndr⟩ := List.nodup_cons.mp hnd
    by_cases hab : a = b
    · subst hab
      have hrest : rest.filterMap g = [] := by
        rw [List.filterMap_eq_nil_iff]
        intro m hm
        exact hother m (List.mem_cons_of_mem _ hm) (fun h => hna (h ▸ hm))
      simp [List.filterMap_cons, hb, hrest]
    · have hga : g a = none := hother a (List.mem_cons_self _ _) hab
      have hmem' : b ∈ rest := by
        rcases List.mem_cons.mp hmem with rfl | h
        · exact absurd rfl hab
        · exact h
      simp only [List.filterMap_cons, hga]
      exact ih hndr hmem' (fun m hm hne => hother m (List.mem_cons_of_mem _ hm) hne)

/-! ## Claim C6 -/

/-- Claim C6: if exactly one of the configured backends raises, then after
the join the result map has one entry per backend (the failed one holding
the empty placeholder, the others their real outputs), the error map is
exactly the one entry keyed by the failed backend, and the result keys are
exactly the configured backends — whatever completion order the parallel
pool produced. -/
theorem orchestrate_single_failure (selected completionOrder : List String)
    (invoke : String → Except String String) (b e : String) (out : String → String)
    (hperm : completionOrder.Perm selected) (hnd : selected.Nodup)
    (hb : b ∈ selected) (hfail : invoke b = Except.error e)
    (hok : ∀ m ∈ selected, m ≠ b → invoke m = Except.ok (out m)) :
    (orchestrate completionOrder invoke).1.length = selected.length ∧
    (orchestrate completionOrder invoke).2 = [(b, e)] ∧
    (orchestrate completionOrder invoke).1.lookup b = some "" ∧
    (∀ m ∈ selected, m ≠ b → (orchestrate completionOrder invoke).1.lookup m = some (out m)) ∧
    ((orchestrate completionOrder invoke).1.map Prod.fst).Perm selected := by
  refine ⟨?_, ?_, ?_, ?_, ?_⟩
  · rw [orchestrate_fst, List.length_map]
    exact hperm.length_eq
  · rw [orchestrate_snd]
    refine filterMap_eq_single (errEntry invoke) b (b, e) completionOrder
      (hperm.nodup_iff.mpr hnd) (hperm.mem_iff.mpr hb) ?_ ?_
    · simp [errEntry, hfail]
    · intro m hm hne
      simp [errEntry, hok m (hperm.mem_iff.mp hm) hne]
  · rw [orchestrate_fst]
    have h := lookup_map_value completionOrder (resultValue invoke) b (hperm.mem_iff.mpr hb)
    simpa [resultValue, hfail] using h
  · intro m hm hne
    rw [orchestrate_fst]
    have h := lookup_map_value completionOrder (resultValue invoke) m (hperm.mem_iff.mpr hm)
    simpa [resultValue, hok m hm hne] using h
  · rw [orchestrate_fst]
    have h : (completionOrder.map (fun m => (m, resultValue invoke m))).map Prod.fst
        = completionOrder := by
      rw [List.map_map]
      rw [show (Prod.fst ∘ fun m => (m, resultValue invoke m)) = (id : String → String) from rfl]
      exact List.map_id _
    rw [h]
    exact hperm

/-- Witness for C6: three backends, backend `"b"` raises `"boom"`. -/
theorem orchestrate_single_failure_witness :
    (orchestrate ["a", "b", "c"] invokeOneFail).1.length = (["a", "b", "c"] : List String).length ∧
    (orchestrate ["a", "b", "c"] invokeOneFail).2 = [("b", "boom")] ∧
    (orchestrate ["a", "b", "c"] invokeOneFail).1.lookup "b" = some "" ∧
    (∀ m ∈ (["a", "b", "c"] : List String), m ≠ "b" →
      (orchestrate ["a", "b", "c"] invokeOneFail).1.lookup m = some (outOneFail m)) ∧
    ((orchestrate ["a", "b", "c"] invokeOneFail).1.map Prod.fst).Perm ["a", "b", "c"] :=
  orchestrate_single_failure ["a", "b", "c"] ["a", "b", "c"] invokeOneFail "b" "boom"
    outOneFail (List.Perm.refl _) (by decide) (by decide) (by rfl)
    (by
      intro m hm hne
      fin_cases hm
      · rfl
      · exact absurd rfl hne
      · rfl)

/-! ## Claim C7 -/

/-- Counterexample to C7 as stated: a backend invocation that succeeds (no
exception) but returns the empty string yields an *empty* result-map entry,
so "all succeed implies N non-empty entries" fails. -/
theorem orchestrate_all_success_counterexample :
    (orchestrate ["m1"] (fun _ => Except.ok "")).2 = [] ∧
    (orchestrate ["m1"] (fun _ => Except.ok "")).1 = [("m1", "")] ∧
    ¬ (∀ p ∈ (orchestrate ["m1"] (fun _ => Except.ok "")).1, p.2 ≠ "") := by
  decide

/-- Claim C7 as amended: if every backend invocation succeeds, the error map
is empty and the result map has one entry per backend holding exactly that
backend's output — non-empty whenever the backend's output is non-empty. -/
theorem orchestrate_all_success (selected completionOrder : List String)
    (invoke : String → Except String String) (out : String → String)
    (hperm : completionOrder.Perm selected)
    (hok : ∀ m ∈ selected, invoke m = Except.ok (out m)) :
    (orchestrate completionOrder invoke).2 = [] ∧
    (orchestrate completionOrder invoke).1.length = selected.length ∧
    (∀ m ∈ selected, (orchestrate completionOrder invoke).1.lookup m = some (out m)) ∧
    ((orchestrate completionOrder invoke).1.map Prod.fst).Perm selected ∧
    ((∀ m ∈ selected, out m ≠ "") →
      ∀ p ∈ (orchestrate completionOrder invoke).1, p.2 ≠ "") := by
  refine ⟨?_, ?_, ?_, ?_, ?_⟩
  · rw [orchestrate_snd]
    rw [List.filterMap_eq_nil_iff]
    intro m hm
    simp [errEntry, hok m (hperm.mem_iff.mp hm)]
  · rw [orchestrate_fst, List.length_map]
    exact hperm.length_eq
  · intro m hm
    rw [orchestrate_fst]
    have h := lookup_map_value completionOrder (resultValue invoke) m (hperm.mem_iff.mpr hm)
    simpa [resultValue, hok m hm] using h
  · rw [orchestrate_fst]
    have h : (completionOrder.map (fun m => (m, resultValue invoke m))).map Prod.fst
        = completionOrder := by
      rw [List.map_map]
      rw [show (Prod.fst ∘ fun m => (m, resultValue invoke m)) = (id : String → String) from rfl]
      exact List.map_id _
    rw [h]
    exact hperm
  · intro hne p hp
    rw [orchestrate_fst] at hp
    obtain ⟨m, hm, rfl⟩ := List.mem_map.mp hp
    have hms : m ∈ selected := hperm.mem_iff.mp hm
    simpa [resultValue, hok m hms] using hne m hms

/-- Witness for the amended C7: two backends, both succeeding with
non-empty outputs. -/
theorem orchestrate_all_success_witness :
    (orchestrate ["x", "y"] invokeOk).2 = [] ∧
    (orchestrate ["x", "y"] invokeOk).1.length = (["x", "y"] : List String).length ∧
    (∀ m ∈ (["x", "y"] : List String), (orchestrate ["x", "y"] invokeOk).1.lookup m = some (outOk m)) ∧
    ((orchestrate ["x", "y"] invokeOk).1.map Prod.fst).Perm ["x", "y"] ∧
    ((∀ m ∈ (["x", "y"] : List String), outOk m ≠ "") →
      ∀ p ∈ (orchestrate ["x", "y"] invokeOk).1, p.2 ≠ "") :=
  orchestrate_all_success ["x", "y"] ["x", "y"] invokeOk outOk (List.Perm.refl _)
    (by
      intro m hm
      fin_cases hm
      · rfl
      · rfl)

/-! ## Claim C2 -/

/-- Counterexample to C2 as stated: with caller-supplied backend order
`["A", "B"]` and parallel completion order `["B", "A"]`, the `srcs` context
handed to the base model lists `B` before `A` — it follows the result map's
insertion (completion) order, not the caller order, so the synthesis input
is not "assembled in the caller-supplied backend order, never in completion
order". -/
theorem synthSrcs_completion_order_counterexample :
    synthSrcs (orchestrate ["B", "A"] invokeEcho).1
      = ["### Model: B\nvB", "### Model: A\nvA"] ∧
    synthSrcs (orchestrate ["B", "A"] invokeEcho).1
      ≠ synthSrcs (orchestrate ["A", "B"] invokeEcho).1 := by
  decide

/-- Claim C2 as amended: the reducer is invoked once, with all non-empty
results as context, assembled in the iteration (insertion) order of the
result map — the caller-supplied order only under sequential orchestration,
the completion order under the parallel pool. -/
theorem synthSrcs_insertion_order (order : List String)
    (invoke : String → Except String String) :
    synthSrcs (orchestrate order invoke).1
      = order.filterMap (fun m =>
          if resultValue invoke m = "" then none
          else some ("### Model: " ++ m ++ "\n" ++ resultValue invoke m)) := by
  rw [orchestrate_fst, synthSrcs, List.filterMap_map]
  rfl

/-! ## Claim C9 -/

/-- Claim C9: when every entry of the result map handed to the reducer is
empty, `srcs` is empty, the base model receives the explicit
`"No sources."` marker in place of the context, and the reducer still
returns the base call's artifact (it is a total function — no exception
path exists). -/
theorem synthesize_no_sources (baseCall : List String → String)
    (systemTxt template headerTxt : String) (summaries : List (String × String))
    (h : ∀ p ∈ summaries, p.2 = "") :
    synthSrcs summaries = [] ∧
    synthContext summaries = "No sources." ∧
    synthesize_file_history_with_base baseCall systemTxt template headerTxt summaries
      = baseCall [systemTxt, template, headerTxt, synthUserText, "No sources."] := by
  have hsrcs : synthSrcs summaries = [] := by
    rw [synthSrcs, List.filterMap_eq_nil_iff]
    intro p hp
    simp [h p hp]
  refine ⟨hsrcs, ?_, ?_⟩
  · rw [synthContext, hsrcs]
    rfl
  · rw [synthesize_file_history_with_base, synthMessages, synthContext, hsrcs]
    rfl

/-- Witness for C9: two backends, both with empty results. -/
theorem synthesize_no_sources_witness :
    synthSrcs [("A", ""), ("B", "")] = [] ∧
    synthContext [("A", ""), ("B", "")] = "No sources." ∧
    synthesize_file_history_with_base (fun msgs => String.intercalate "|" msgs)
        "sys" "tpl" "hdr" [("A", ""), ("B", "")]
      = (fun msgs => String.intercalate "|" msgs)
          ["sys", "tpl", "hdr", synthUserText, "No sources."] :=
  synthesize_no_sources (fun msgs => String.intercalate "|" msgs) "sys" "tpl" "hdr"
    [("A", ""), ("B", "")] (by decide)

theorem flatten_nlLines (d : List Char) :
    (nlLines d).flatten = d := by
  induction d using nlLines.induct with
  | case1 => rfl
  | case2 rest ih => simp [nlLines, ih]
  | case3 c rest h heq ih =>
    have hrest : rest = [] := by rw [← ih, heq]; rfl
    subst hrest
    simp [nlLines, h]
  | case4 c rest h seg more heq ih =>
    rw [heq] at ih
    simp only [List.flatten_cons] at ih
    simp [nlLines, h, heq, ih]

theorem flatten_mkBlocksAux (lns cur : List (List Char)) :
    (mkBlocksAux lns cur).flatten = cur ++ lns := by
  induction lns generalizing cur with
  | nil => simp [mkBlocksAux]
  | cons ln rest ih =>
    by_cases h : isHeaderLine ln
    · simp [mkBlocksAux, h, ih]
    · simp [mkBlocksAux, h, ih]

theorem parseBlocks_flatten (d : List Char) :
    (parseBlocks d).flatten = (nlLines d).dropWhile (fun ln => !isHeaderLine ln) := by
  rw [parseBlocks]
  cases hdw : (nlLines d).dropWhile (fun ln => !isHeaderLine ln) with
  | nil => rfl
  | cons h rest => simp [flatten_mkBlocksAux]

theorem keepSkipFold (cfg : RuleCfg) (blocks : List (List (List Char)))
    (k s : List (List Char)) :
    blocks.foldl (keepSkipStep cfg) (k, s)
      = (k ++ (blocks.filter (fun b => !isGenBlock cfg b)).map List.flatten,
         s ++ (blocks.filter (fun b => isGenBlock cfg b)).map skippedName) := by
  induction blocks generalizing k s with
  | nil => simp
  | cons blk rest ih =>
    simp only [List.foldl_cons]
    cases hgen : isGenBlock cfg blk with
    | true =>
      rw [show keepSkipStep cfg (k, s) blk = (k, s ++ [skippedName blk]) from by
        simp [keepSkipStep, hgen]]
      rw [ih]
      simp [List.filter_cons, hgen]
    | false =>
      rw [show keepSkipStep cfg (k, s) blk = (k ++ [blk.flatten], s) from by
        simp [keepSkipStep, hgen]]
      rw [ih]
      simp [List.filter_cons, hgen]

theorem length_filter_partition (p : List (List Char) → Bool)
    (l : List (List (List Char))) :
    (l.filter (fun b => !p b)).length + (l.filter p).length = l.length := by
  induction l with
  | nil => rfl
  | cons a rest ih =>
    cases hp : p a <;> simp [List.filter_cons, hp] <;> omega

theorem globLoop_skip_error (gs1 gs2 : List (List Char → Except Unit Bool))
    (bad : List Char → Except Unit Bool) (p : List Char)
    (h : bad p = Except.error ()) :
    globLoop (gs1 ++ bad :: gs2) p = globLoop (gs1 ++ gs2) p := by
  induction gs1 with
  | nil => simp [globLoop, h]
  | cons g gs1 ih =>
    cases hg : g p with
    | ok bv =>
      cases bv
      · simp [globLoop, hg, ih]
      · simp [globLoop, hg]
    | error e => simp [globLoop, hg, ih]

/-! ## Claim C3 -/

/-- Counterexample to C3 as stated: with filtering enabled and no rules at
all, `filter_out_generated_diffs` still slices the diff into blocks starting
at the first header, so the text before the first header (`"x\n"`) is
dropped — the output differs from the input even though the skipped list is
empty. -/
theorem filter_no_rules_counterexample :
    (filter_out_generated_diffs ("x\ndiff --git a/f1 b/f1\n+a\n".data) cfgNoRules).2 = [] ∧
    (filter_out_generated_diffs ("x\ndiff --git a/f1 b/f1\n+a\n".data) cfgNoRules).1
      ≠ "x\ndiff --git a/f1 b/f1\n+a\n".data := by
  decide

/-- Claim C3 as amended: with `skip_generated` false the input is returned
unchanged with an empty skipped list; with filtering enabled but no rules
configured, the skipped list is empty and the output is the concatenation
of all file blocks — equal to the input exactly when no text precedes the
first header (in particular when the input is empty, has no header at all,
or starts with a header line). -/
theorem filter_disabled_or_no_rules (d : List Char) (cfg : RuleCfg) :
    (cfg.skip_generated = false → filter_out_generated_diffs d cfg = (d, [])) ∧
    (cfg.skip_generated = true → cfg.generated_path_globs = [] →
     cfg.generated_file_regex = none → cfg.generated_header_markers = [] →
      (filter_out_generated_diffs d cfg).2 = [] ∧
      (filter_out_generated_diffs d cfg).1
        = (if (nlLines d).all (fun ln => !isHeaderLine ln) then d
           else ((nlLines d).dropWhile (fun ln => !isHeaderLine ln)).flatten) ∧
      ((nlLines d).takeWhile (fun ln => !isHeaderLine ln) = [] →
        filter_out_generated_diffs d cfg = (d, []))) := by
  constructor
  · intro h
    simp [filter_out_generated_diffs, h]
  · intro hskip hg hrx hmk
    have hgen : ∀ blk, isGenBlock cfg blk = false := by
      intro blk
      simp [isGenBlock, isGeneratedPath, hg, hrx, hmk, globLoop, hasGeneratedMarkers]
    by_cases hall : (nlLines d).all (fun ln => !isHeaderLine ln)
    · have hfo : filter_out_generated_diffs d cfg = (d, []) := by
        by_cases hde : d.isEmpty
        · simp [filter_out_generated_diffs, hde]
        · simp [filter_out_generated_diffs, hde, hskip, hall]
      exact ⟨by rw [hfo], by rw [hfo, if_pos hall], fun _ => hfo⟩
    · have hde : d.isEmpty = false := by
        cases hde : d.isEmpty
        · rfl
        · exfalso
          apply hall
          rw [List.isEmpty_iff.mp hde]
          rfl
      have hfo : filter_out_generated_diffs d cfg
          = (((parseBlocks d).map List.flatten).flatten, []) := by
        have h1 : filter_out_generated_diffs d cfg
            = ((((parseBlocks d).foldl (keepSkipStep cfg) ([], [])).1).flatten,
               ((parseBlocks d).foldl (keepSkipStep cfg) ([], [])).2) := by
          simp [filter_out_generated_diffs, hde, hskip, hall]
        rw [h1, keepSkipFold]
        have hkeep : (parseBlocks d).filter (fun b => !isGenBlock cfg b) = parseBlocks d :=
          List.filter_eq_self.mpr (fun b _ => by simp [hgen b])
        have hskp : (parseBlocks d).filter (fun b => isGenBlock cfg b) = [] := by
          rw [List.filter_eq_nil_iff]
          intro b _
          simp [hgen b]
        rw [hkeep, hskp]
        simp
      have hflat : ((parseBlocks d).map List.flatten).flatten
          = ((nlLines d).dropWhile (fun ln => !isHeaderLine ln)).flatten := by
        rw [flatten_map_flatten, parseBlocks_flatten]
      refine ⟨by rw [hfo], ?_, ?_⟩
      · rw [hfo, if_neg hall]
        exact hflat
      · intro htw
        have hdw : (nlLines d).dropWhile (fun ln => !isHeaderLine ln) = nlLines d := by
          conv_rhs => rw [← List.takeWhile_append_dropWhile (fun ln => !isHeaderLine ln) (nlLines d)]
          rw [htw, List.nil_append]
        rw [hfo]
        simp only [Prod.mk.injEq]
        refine ⟨?_, trivial⟩
        rw [hflat, hdw, flatten_nlLines]

/-- Witness for the amended C3: a disabled-filter run returns the input
unchanged, and a no-rules run returns an empty skipped list. -/
theorem filter_disabled_or_no_rules_witness :
    filter_out_generated_diffs ("diff --git a/f1 b/f1\n+a\n".data) cfgDisabled
      = ("diff --git a/f1 b/f1\n+a\n".data, []) ∧
    (filter_out_generated_diffs ("diff --git a/f1 b/f1\n+a\n".data) cfgNoRules).2 = [] :=
  ⟨(filter_disabled_or_no_rules ("diff --git a/f1 b/f1\n+a\n".data) cfgDisabled).1 rfl,
   ((filter_disabled_or_no_rules ("diff --git a/f1 b/f1\n+a\n".data) cfgNoRules).2
      rfl rfl rfl rfl).1⟩

/-! ## Claim C4 -/

/-- Claim C4: with filtering enabled and at least one header present, the
file blocks are partitioned — the kept output is exactly the concatenation
of the non-generated blocks in original order, the skipped list exactly the
reported paths of the generated blocks in original order, and every block
falls in exactly one of the two (the two filters' lengths sum to the block
count). -/
theorem filter_partitions_blocks (d : List Char) (cfg : RuleCfg)
    (hskip : cfg.skip_generated = true)
    (hhdr : ((nlLines d).all (fun ln => !isHeaderLine ln)) = false) :
    filter_out_generated_diffs d cfg
      = ((((parseBlocks d).filter (fun b => !isGenBlock cfg b)).map List.flatten).flatten,
         ((parseBlocks d).filter (fun b => isGenBlock cfg b)).map skippedName) ∧
    ((parseBlocks d).filter (fun b => !isGenBlock cfg b)).length
      + ((parseBlocks d).filter (fun b => isGenBlock cfg b)).length
      = (parseBlocks d).length := by
  have hde : d.isEmpty = false := by
    cases hde : d.isEmpty
    · rfl
    · rw [List.isEmpty_iff.mp hde] at hhdr
      exact absurd hhdr (by decide)
  constructor
  · have h1 : filter_out_generated_diffs d cfg
        = ((((parseBlocks d).foldl (keepSkipStep cfg) ([], [])).1).flatten,
           ((parseBlocks d).foldl (keepSkipStep cfg) ([], [])).2) := by
      simp [filter_out_generated_diffs, hde, hskip, hhdr]
    rw [h1, keepSkipFold]
    simp
  · exact length_filter_partition _ _

/-- Witness for C4: two blocks, a glob that skips the second. -/
theorem filter_partitions_blocks_witness :
    filter_out_generated_diffs dTwoBlocks cfgGlobF2
      = ((((parseBlocks dTwoBlocks).filter (fun b => !isGenBlock cfgGlobF2 b)).map
            List.flatten).flatten,
         ((parseBlocks dTwoBlocks).filter (fun b => isGenBlock cfgGlobF2 b)).map skippedName) ∧
    ((parseBlocks dTwoBlocks).filter (fun b => !isGenBlock cfgGlobF2 b)).length
      + ((parseBlocks dTwoBlocks).filter (fun b => isGenBlock cfgGlobF2 b)).length
      = (parseBlocks dTwoBlocks).length :=
  filter_partitions_blocks dTwoBlocks cfgGlobF2 rfl (by decide)

/-! ## Claim C8 -/

/-- Claim C8: a glob rule that raises is skipped — the loop continues with
the remaining globs — and a regex that raises is treated exactly like no
regex; the block-level classification with the malformed rules present
equals the classification without them, marker rules still applying, so a
malformed rule never aborts classification (which, being a total Boolean
function, always yields a decision). -/
theorem malformed_rule_skipped (blk : List (List Char))
    (gs1 gs2 : List (List Char → Except Unit Bool))
    (bad badrx : List Char → Except Unit Bool)
    (markers : List (List Char)) (sg : Bool)
    (hbad : bad (pyStrip (blockPath blk)) = Except.error ())
    (hbadrx : badrx (pyStrip (blockPath blk)) = Except.error ()) :
    globLoop (gs1 ++ bad :: gs2) (pyStrip (blockPath blk))
      = globLoop (gs1 ++ gs2) (pyStrip (blockPath blk)) ∧
    isGeneratedPath (blockPath blk) (gs1 ++ bad :: gs2) (some badrx)
      = isGeneratedPath (blockPath blk) (gs1 ++ gs2) none ∧
    isGenBlock ⟨sg, gs1 ++ bad :: gs2, some badrx, markers⟩ blk
      = isGenBlock ⟨sg, gs1 ++ gs2, none, markers⟩ blk := by
  have hglob := globLoop_skip_error gs1 gs2 bad (pyStrip (blockPath blk)) hbad
  have hpath : isGeneratedPath (blockPath blk) (gs1 ++ bad :: gs2) (some badrx)
      = isGeneratedPath (blockPath blk) (gs1 ++ gs2) none := by
    simp only [isGeneratedPath, hglob, hbadrx]
  exact ⟨hglob, hpath, by simp only [isGenBlock, hpath]⟩

/-- Witness for C8: a single-header block, one always-raising glob ahead of
a well-behaved glob, and an always-raising regex. -/
theorem malformed_rule_skipped_witness :
    globLoop ([] ++ badRule :: [okRule]) (pyStrip (blockPath blkSample))
      = globLoop ([] ++ [okRule]) (pyStrip (blockPath blkSample)) ∧
    isGeneratedPath (blockPath blkSample) ([] ++ badRule :: [okRule]) (some badRule)
      = isGeneratedPath (blockPath blkSample) ([] ++ [okRule]) none ∧
    isGenBlock ⟨true, [] ++ badRule :: [okRule], some badRule, []⟩ blkSample
      = isGenBlock ⟨true, [] ++ [okRule], none, []⟩ blkSample :=
  malformed_rule_skipped blkSample [] [okRule] badRule badRule [] true rfl rfl

/-! ## Claim C10 -/

/-- Claim C10: a file block whose extracted target path itself starts with
the literal `b/` (a real file under a top-level directory named `b`) has
that prefix stripped before classification: rule matching and the skipped
entry both use the shortened path, which differs from the true one. -/
theorem b_slash_stripped (blk : List (List Char)) (bp : List Char) (cfg : RuleCfg)
    (hbp : blockBGroup blk = bp) (htake : bp.take 2 = ['b', '/']) :
    blockPath blk = bp.drop 2 ∧
    blockPath blk ≠ bp ∧
    skippedName blk = (if (bp.drop 2).isEmpty then "(unknown)".data else bp.drop 2) ∧
    isGenBlock cfg blk
      = (isGeneratedPath (bp.drop 2) cfg.generated_path_globs cfg.generated_file_regex
         || hasGeneratedMarkers blk.flatten cfg.generated_header_markers) := by
  have hlen : 2 ≤ bp.length := by
    have h := congrArg List.length htake
    rw [List.length_take] at h
    simp only [List.length_cons, List.length_nil] at h
    omega
  have hpath : blockPath blk = bp.drop 2 := by
    rw [blockPath, hbp, stripLeadingB, if_pos htake]
  refine ⟨hpath, ?_, ?_, ?_⟩
  · rw [hpath]
    intro he
    have h := congrArg List.length he
    rw [List.length_drop] at h
    omega
  · rw [skippedName, hpath]
  · rw [isGenBlock, hpath]

/-- Witness for C10: the block of the real file `b/real.txt`; the classifier
works on `real.txt` instead. -/
theorem b_slash_stripped_witness :
    blockPath blkB = ("b/real.txt".data).drop 2 ∧
    blockPath blkB ≠ "b/real.txt".data ∧
    skippedName blkB
      = (if (("b/real.txt".data).drop 2).isEmpty then "(unknown)".data
         else ("b/real.txt".data).drop 2) ∧
    isGenBlock cfgNoRules blkB
      = (isGeneratedPath (("b/real.txt".data).drop 2) cfgNoRules.generated_path_globs
           cfgNoRules.generated_file_regex
         || hasGeneratedMarkers blkB.flatten cfgNoRules.generated_header_markers) :=
  b_slash_stripped blkB ("b/real.txt".data) cfgNoRules (by decide) (by decide)
